import Mathlib

/-!
# Kolab conversion helpers (conversion/commonconversion.cpp)

A shallow embedding of the mailto identity codec (toMailto, fromMailto) and of the
date-time conversion (getTimeSpec, toDate, fromDate), followed by the properties
proved about them.

Conventions of the embedding:

* a std::string is the list of its bytes, each byte written as the character of that
  code (0 to 255); a QString is the list of its code points;
* std::string::npos is `none`, an index is a natural number;
* an operation that throws in C++ (substr with a start past the end) returns `none`;
* logging (Warning, Error, WARNING, std::cout) has no effect on the returned value
  and is left out;
* Q_ASSERT does not change the returned value; the asserted conditions are stated
  as properties of the returned value.
-/

namespace Kolab.Conversion

set_option autoImplicit false

/-! ## Strings -/

/-- A std::string (and a QByteArray), as the list of its bytes, each byte written as the
character of that code. -/
abbrev StdString := List Char

/-- The literal "mailto:" of fromMailto and toMailto. -/
def mailtoScheme : StdString := "mailto:".toList

/-- Subtraction of two size_t values: exact when the subtrahend is not larger, wrapping
around 2^64 otherwise (as unsigned arithmetic does for operands below 2^64). -/
def sizeSub (a b : Nat) : Nat := if b ≤ a then a - b else a + 2 ^ 64 - b

/-- The method std::string::substr(pos, n): the characters from index pos on, at most n of
them; it throws std::out_of_range (here: none) when pos is larger than the size. -/
def StdString.substr (s : StdString) (pos n : Nat) : Option StdString :=
  if pos ≤ s.length then some ((s.drop pos).take n) else none

/-- Scan for a character, the index of the first scanned position being i. -/
def StdString.findAux (c : Char) : StdString → Nat → Option Nat
  | [], _ => none
  | x :: xs, i => if x = c then some i else StdString.findAux c xs (i + 1)

/-- The method std::string::find(c, pos): the first index at or after pos that holds c,
or npos (here: none). -/
def StdString.find (s : StdString) (c : Char) (pos : Nat) : Option Nat :=
  StdString.findAux c (s.drop pos) pos

/-- The method std::string::compare: zero exactly when the two strings are equal, and a
negative or positive number according to the lexicographic order otherwise. -/
def StdString.compare (a b : StdString) : Int :=
  if a = b then 0 else if a < b then -1 else 1

/-- The conversion mailto.c_str() handed to QByteArray(const char *): a C string ends at
its first NUL character. -/
def c_str (s : StdString) : StdString := s.takeWhile (fun c => c != '\x00')

/-- Value of a hexadecimal digit; none for every other character. -/
def hexVal (c : Char) : Option Nat :=
  if '0' ≤ c ∧ c ≤ '9' then some (c.toNat - '0'.toNat)
  else if 'a' ≤ c ∧ c ≤ 'f' then some (c.toNat - 'a'.toNat + 10)
  else if 'A' ≤ c ∧ c ≤ 'F' then some (c.toNat - 'A'.toNat + 10)
  else none

/-- Modelled from the spec: PercentDecoder.decode, the "standard URI percent-decoding"
that the code obtains from QUrl::fromPercentEncoding (Qt, no source in this repository);
this is its first step, on bytes (QByteArray::fromPercentEncoding). A percent sign followed
by two hexadecimal digits becomes the byte with that value; every other byte is copied. -/
def fromPercentEncoding : StdString → StdString
  | [] => []
  | c :: rest =>
    let copied := c :: fromPercentEncoding rest
    if c = '%' then
      match rest with
      | a :: b :: rest2 =>
        match hexVal a, hexVal b with
        | some x, some y => Char.ofNat (16 * x + y) :: fromPercentEncoding rest2
        | _, _ => copied
      | _ => copied
    else copied

/-! ## The text conversions of line 154

QUrl::fromPercentEncoding returns a QString: it reads the percent-decoded bytes as UTF-8.
toStdString turns the QString into a std::string again, as UTF-8. -/

/-- A QString, as the list of its code points. -/
abbrev QString := List Nat

/-- A continuation byte of UTF-8: 0x80 to 0xBF. -/
def isContinuation (b : Nat) : Bool := decide (0x80 ≤ b) && decide (b ≤ 0xBF)

/-- Modelled from the spec: one step of the UTF-8 decoder of QString::fromUtf8 (Qt) at the
head of a byte string: the code point and the number of bytes it takes, or none when no
code point can be read there. The lead byte fixes the length and the payload bits, each
further byte must be a continuation byte, and the decoder rejects an overlong form, a
surrogate and a value above U+10FFFF. The bit operations are written as arithmetic:
for a lead byte b of a two-byte form, b and 0x1f is b - 0xC0, and so on. -/
def decodeHead : StdString → Option (Nat × Nat)
  | [] => none
  | a :: rest =>
    let b := a.toNat
    if b < 0x80 then some (b, 1)
    else if b ≤ 0xC1 then none
    else if b < 0xE0 then
      match rest with
      | c1 :: _ =>
        if isContinuation c1.toNat then
          let uc := (b - 0xC0) * 64 + (c1.toNat - 0x80)
          if uc < 0x80 then none else some (uc, 2)
        else none
      | _ => none
    else if b < 0xF0 then
      match rest with
      | c1 :: c2 :: _ =>
        if isContinuation c1.toNat && isContinuation c2.toNat then
          let uc := (b - 0xE0) * 4096 + (c1.toNat - 0x80) * 64 + (c2.toNat - 0x80)
          if uc < 0x800 then none
          else if 0xD800 ≤ uc ∧ uc ≤ 0xDFFF then none
          else some (uc, 3)
        else none
      | _ => none
    else if b < 0xF5 then
      match rest with
      | c1 :: c2 :: c3 :: _ =>
        if isContinuation c1.toNat && isContinuation c2.toNat && isContinuation c3.toNat then
          let uc := (b - 0xF0) * 262144 + (c1.toNat - 0x80) * 4096 + (c2.toNat - 0x80) * 64
            + (c3.toNat - 0x80)
          if uc < 0x10000 then none
          else if 0x10FFFF < uc then none
          else some (uc, 4)
        else none
      | _ => none
    else none

/-- The decoding loop of QString::fromUtf8: at a position where no code point can be read
the decoder emits U+FFFD and goes on with the next byte. The counter holds the number of
bytes still to skip, those of the code point just read. -/
def fromUtf8Aux : Nat → StdString → QString
  | _, [] => []
  | skip + 1, _ :: rest => fromUtf8Aux skip rest
  | 0, a :: rest =>
    match decodeHead (a :: rest) with
    | some (uc, n) => uc :: fromUtf8Aux (n - 1) rest
    | none => 0xFFFD :: fromUtf8Aux 0 rest

/-- Modelled from the spec: the start of QString::fromUtf8 (Qt): a byte-order mark (EF BB BF)
at the very start of the bytes is dropped. -/
def skipBom : StdString → StdString
  | a :: b :: c :: rest =>
    if a.toNat = 0xEF ∧ b.toNat = 0xBB ∧ c.toNat = 0xBF then rest else a :: b :: c :: rest
  | s => s

/-- Modelled from the spec: QString::fromUtf8 (Qt): the code points of a byte string read as
UTF-8, with U+FFFD for every byte that starts no well-formed sequence. -/
def fromUtf8 (ba : StdString) : QString := fromUtf8Aux 0 (skipBom ba)

/-- Modelled from the spec: the UTF-8 encoding of one code point, as QString::toUtf8 (Qt)
writes it: one to four bytes according to the size of the code point. -/
def encodeUtf8 (uc : Nat) : StdString :=
  if uc < 0x80 then [Char.ofNat uc]
  else if uc < 0x800 then [Char.ofNat (0xC0 + uc / 64), Char.ofNat (0x80 + uc % 64)]
  else if uc < 0x10000 then
    [Char.ofNat (0xE0 + uc / 4096), Char.ofNat (0x80 + uc / 64 % 64), Char.ofNat (0x80 + uc % 64)]
  else
    [Char.ofNat (0xF0 + uc / 262144), Char.ofNat (0x80 + uc / 4096 % 64),
      Char.ofNat (0x80 + uc / 64 % 64), Char.ofNat (0x80 + uc % 64)]

/-- Modelled from the spec: QString::toUtf8 (Qt): the UTF-8 encoding of a QString. -/
def toUtf8 : QString → StdString
  | [] => []
  | uc :: rest => encodeUtf8 uc ++ toUtf8 rest

/-- Modelled from the spec: toStdString (commonconversion.h, not among the sources): the
std::string of a QString, its UTF-8 encoding. -/
def toStdString (s : QString) : StdString := toUtf8 s

/-- Modelled from the spec: PercentDecoder.decode as the code calls it,
QUrl::fromPercentEncoding (Qt): the bytes are percent-decoded and read as UTF-8. -/
def QUrl.fromPercentEncoding (ba : StdString) : QString :=
  fromUtf8 (Kolab.Conversion.fromPercentEncoding ba)

/-- One well-formed UTF-8 byte sequence, after the table of well-formed byte sequences of
the Unicode standard: one byte up to 0x7F; C2..DF and a continuation byte; E0 A0..BF,
E1..EC 80..BF, ED 80..9F or EE..EF 80..BF and a continuation byte; F0 90..BF, F1..F3 80..BF
or F4 80..8F and two continuation bytes. -/
def isUtf8Seq : StdString → Bool
  | [a] => decide (a.toNat ≤ 0x7F)
  | [a, b] =>
    decide (0xC2 ≤ a.toNat ∧ a.toNat ≤ 0xDF) && decide (0x80 ≤ b.toNat ∧ b.toNat ≤ 0xBF)
  | [a, b, c] =>
    (decide (a.toNat = 0xE0 ∧ 0xA0 ≤ b.toNat ∧ b.toNat ≤ 0xBF)
      || decide (0xE1 ≤ a.toNat ∧ a.toNat ≤ 0xEC ∧ 0x80 ≤ b.toNat ∧ b.toNat ≤ 0xBF)
      || decide (a.toNat = 0xED ∧ 0x80 ≤ b.toNat ∧ b.toNat ≤ 0x9F)
      || decide (0xEE ≤ a.toNat ∧ a.toNat ≤ 0xEF ∧ 0x80 ≤ b.toNat ∧ b.toNat ≤ 0xBF))
    && decide (0x80 ≤ c.toNat ∧ c.toNat ≤ 0xBF)
  | [a, b, c, d] =>
    (decide (a.toNat = 0xF0 ∧ 0x90 ≤ b.toNat ∧ b.toNat ≤ 0xBF)
      || decide (0xF1 ≤ a.toNat ∧ a.toNat ≤ 0xF3 ∧ 0x80 ≤ b.toNat ∧ b.toNat ≤ 0xBF)
      || decide (a.toNat = 0xF4 ∧ 0x80 ≤ b.toNat ∧ b.toNat ≤ 0x8F))
    && decide (0x80 ≤ c.toNat ∧ c.toNat ≤ 0xBF) && decide (0x80 ≤ d.toNat ∧ d.toNat ≤ 0xBF)
  | _ => false

/-- A well-formed UTF-8 string: a concatenation of well-formed byte sequences. -/
inductive WellFormedUtf8 : StdString → Prop
  | nil : WellFormedUtf8 []
  | seq (u rest : StdString) : isUtf8Seq u = true → WellFormedUtf8 rest →
      WellFormedUtf8 (u ++ rest)

/-! ## The mailto codec -/

/-- The string that toMailto hands to QUrl: "mailto:" followed by the name (appended only
when it is not empty), "<", the email and ">". -/
def toMailto (email name : StdString) : StdString :=
  let mailto : StdString := []
  let mailto := if ¬ name.isEmpty then mailto ++ name else mailto
  let mailto := mailto ++ "<".toList
  let mailto := mailto ++ email
  let mailto := mailto ++ ">".toList
  mailtoScheme ++ mailto

/-- The local `decoded` of fromMailto (line 154),
toStdString(QUrl::fromPercentEncoding(QByteArray(mailto.c_str()))): the C string of the
argument, percent-decoded, read as UTF-8 and written as UTF-8 again. -/
def decodedString (mailto : StdString) : StdString :=
  toStdString (QUrl.fromPercentEncoding (c_str mailto))

/-- The body of fromMailto(const std::string &) after `decoded` is computed (lines 155 to
174). The result is the pair (first, second) of the returned QPair; none stands for an
exception thrown by substr. -/
def fromMailtoDecoded (decoded : StdString) : Option (StdString × StdString) :=
  match StdString.substr decoded 0 7 with
  | none => none
  | some head =>
    if StdString.compare head mailtoScheme ≠ 0 then
      some (decoded, [])
    else
      match StdString.find decoded '<' 7 with
      | none => some (decoded, [])
      | some b =>
        match StdString.find decoded '>' b with
        | none => some (decoded, [])
        | some e =>
          match StdString.substr decoded 7 (sizeSub b 7) with
          | none => none
          | some name =>
            match StdString.substr decoded (b + 1) (sizeSub (sizeSub e b) 1) with
            | none => none
            | some email => some (email, name)

/-- The function fromMailto(const std::string &mailto). -/
def fromMailto (mailto : StdString) : Option (StdString × StdString) :=
  fromMailtoDecoded (decodedString mailto)

/-- The characters of s at the indices i ≤ k < j (the notation s[i .. j) of the
specification). -/
def slice (s : StdString) (i j : Nat) : StdString := (s.take j).drop i

/-- The index b holds the first occurrence of c at or after index pos. -/
def FirstAt (s : StdString) (c : Char) (pos b : Nat) : Prop :=
  pos ≤ b ∧ s[b]? = some c ∧ ∀ k, pos ≤ k → k < b → s[k]? ≠ some c

/-- No occurrence of c at or after index pos. -/
def NoneFrom (s : StdString) (c : Char) (pos : Nat) : Prop :=
  ∀ k, pos ≤ k → s[k]? ≠ some c

/-! ## Date-time values

The date-time types are declared outside this repository (Kolab::cDateTime in libkolabxml,
QDate and QTime in Qt, KDateTime in the KDE libraries). They are modelled by their
documented behaviour, as far as toDate and fromDate use it. -/

/-- Modelled from the spec: DomainDateTime (Kolab::cDateTime). The six components are
integers, an unset component is -1; the value carries a UTC flag and a timezone string,
empty for floating time. -/
structure cDateTime where
  /-- Calendar year, -1 when unset. -/
  year : Int
  /-- Calendar month, -1 when unset. -/
  month : Int
  /-- Day of the month, -1 when unset. -/
  day : Int
  /-- Hour, -1 when unset. -/
  hour : Int
  /-- Minute, -1 when unset. -/
  minute : Int
  /-- Second, -1 when unset. -/
  second : Int
  /-- True when the instant is UTC. -/
  isUTC : Bool
  /-- Timezone identifier, empty for floating time. -/
  timezone : StdString
  deriving DecidableEq

namespace cDateTime

/-- The default-constructed value cDateTime(): nothing set. -/
def unset : cDateTime := ⟨-1, -1, -1, -1, -1, -1, false, []⟩

/-- Modelled from the spec: isValid, "a date-time is invalid if unset/default": the date
components are set. -/
def isValid (dt : cDateTime) : Bool :=
  decide (0 ≤ dt.year) && decide (0 ≤ dt.month) && decide (0 ≤ dt.day)

/-- Modelled from the spec: isDateOnly, the value carries no time of day: none of hour,
minute, second is set. -/
def isDateOnly (dt : cDateTime) : Bool :=
  decide (dt.hour < 0) && decide (dt.minute < 0) && decide (dt.second < 0)

/-- The setter setDate(year, month, day). -/
def setDate (dt : cDateTime) (y m d : Int) : cDateTime :=
  ⟨y, m, d, dt.hour, dt.minute, dt.second, dt.isUTC, dt.timezone⟩

/-- The setter setTime(hour, minute, second). -/
def setTime (dt : cDateTime) (h m s : Int) : cDateTime :=
  ⟨dt.year, dt.month, dt.day, h, m, s, dt.isUTC, dt.timezone⟩

/-- The setter setUTC(utc). -/
def setUTC (dt : cDateTime) (utc : Bool) : cDateTime :=
  ⟨dt.year, dt.month, dt.day, dt.hour, dt.minute, dt.second, utc, dt.timezone⟩

/-- The setter setTimezone(tz). -/
def setTimezone (dt : cDateTime) (tz : StdString) : cDateTime :=
  ⟨dt.year, dt.month, dt.day, dt.hour, dt.minute, dt.second, dt.isUTC, tz⟩

end cDateTime

/-- Modelled from the spec: the calendar of HostDateTime (QDate::isLeapYear of Qt): the
Gregorian rule, with no year 0 (year -1 is a leap year). -/
def isLeapYear (y : Int) : Bool :=
  let y := if y < 1 then y + 1 else y
  (decide (y % 4 = 0) && decide (y % 100 ≠ 0)) || decide (y % 400 = 0)

/-- Modelled from the spec: the calendar of HostDateTime: number of days of a month in a
year that is not a leap year; 0 for no month. -/
def monthDays (m : Int) : Int :=
  if m = 1 ∨ m = 3 ∨ m = 5 ∨ m = 7 ∨ m = 8 ∨ m = 10 ∨ m = 12 then 31
  else if m = 4 ∨ m = 6 ∨ m = 9 ∨ m = 11 then 30
  else if m = 2 then 28
  else 0

/-- Modelled from the spec: the "calendar date" of HostDateTime, the test
QDate::isValid(year, month, day) of Qt: a date of the Gregorian calendar, which has no
year 0. -/
def isValidYMD (y m d : Int) : Bool :=
  decide (y ≠ 0) && decide (0 < d) && decide (0 < m) && decide (m ≤ 12) &&
    (decide (d ≤ monthDays m) || (decide (d = 29) && decide (m = 2) && isLeapYear y))

/-- Modelled from the spec: the "time-of-day" of HostDateTime, the test
QTime::isValid(h, m, s) of Qt: hour below 24, minute and second below 60. -/
def isValidHMS (h m s : Int) : Bool :=
  decide (0 ≤ h) && decide (h < 24) && decide (0 ≤ m) && decide (m < 60) &&
    decide (0 ≤ s) && decide (s < 60)

/-- Modelled from the spec: the calendar date of HostDateTime (QDate of Qt), as the date
it stands for. The null date is any value that is not a
date of the calendar. -/
structure QDate where
  /-- Stored year. -/
  y : Int
  /-- Stored month. -/
  m : Int
  /-- Stored day. -/
  d : Int
  deriving DecidableEq

namespace QDate

/-- The null date QDate(). -/
def null : QDate := ⟨0, 0, 0⟩

/-- The constructor QDate(y, m, d): the date when it is valid, the null date otherwise. -/
def ofYMD (y m d : Int) : QDate := if isValidYMD y m d then ⟨y, m, d⟩ else null

/-- The method QDate::isValid(). -/
def isValid (q : QDate) : Bool := isValidYMD q.y q.m q.d

/-- The method QDate::year(): 0 for an invalid date. -/
def year (q : QDate) : Int := if q.isValid then q.y else 0

/-- The method QDate::month(): 0 for an invalid date. -/
def month (q : QDate) : Int := if q.isValid then q.m else 0

/-- The method QDate::day(): 0 for an invalid date. -/
def day (q : QDate) : Int := if q.isValid then q.d else 0

end QDate

/-- Modelled from the spec: the time-of-day of HostDateTime (QTime of Qt), as the time it
stands for. The null time is any value that is not a time
of day. -/
structure QTime where
  /-- Stored hour. -/
  h : Int
  /-- Stored minute. -/
  m : Int
  /-- Stored second. -/
  s : Int
  deriving DecidableEq

namespace QTime

/-- The null time QTime(). -/
def null : QTime := ⟨-1, -1, -1⟩

/-- The constructor QTime(h, m, s): the time when it is valid, the null time otherwise. -/
def ofHMS (h m s : Int) : QTime := if isValidHMS h m s then ⟨h, m, s⟩ else null

/-- The method QTime::isValid(). -/
def isValid (t : QTime) : Bool := isValidHMS t.h t.m t.s

/-- The method QTime::hour(): -1 for an invalid time. -/
def hour (t : QTime) : Int := if t.isValid then t.h else -1

/-- The method QTime::minute(): -1 for an invalid time. -/
def minute (t : QTime) : Int := if t.isValid then t.m else -1

/-- The method QTime::second(): -1 for an invalid time. -/
def second (t : QTime) : Int := if t.isValid then t.s else -1

end QTime

/-- Modelled from the spec: the kinds of time specification of HostDateTime (the
enumeration KDateTime::SpecType): UTC, ClockTime (floating), OffsetFromUTC, TimeZone, and
the kinds Invalid (unset) and LocalZone of the library. -/
inductive SpecType where
  | Invalid
  | UTC
  | OffsetFromUTC
  | TimeZone
  | LocalZone
  | ClockTime
  deriving DecidableEq

/-- Modelled from the spec: the named timezone of a time specification (KTimeZone), as far
as fromDate reads it: its name. -/
structure KTimeZone where
  /-- The method KTimeZone::name(). -/
  name : StdString
  deriving DecidableEq

/-- Modelled from the spec: the time specification of HostDateTime (KDateTime::Spec): the
kind of time, with the zone for the kind TimeZone and the
offset in seconds for the kind OffsetFromUTC. -/
structure Spec where
  /-- The method Spec::type(). -/
  type : SpecType
  /-- The method Spec::timeZone(). -/
  timeZone : KTimeZone
  /-- The method Spec::utcOffset(). -/
  utcOffset : Int
  deriving DecidableEq

namespace Spec

/-- The constructor KDateTime::Spec(SpecType), used with UTC and ClockTime. -/
def ofType (t : SpecType) : Spec := ⟨t, ⟨[]⟩, 0⟩

/-- The method Spec::isValid(): the kind is not Invalid. -/
def isValid (s : Spec) : Bool := decide (s.type ≠ SpecType.Invalid)

end Spec

/-- Modelled from the spec: HostDateTime (KDateTime): a calendar date, a time of day, the
date-only flag and a time specification. -/
structure KDateTime where
  /-- The method KDateTime::date(). -/
  date : QDate
  /-- The method KDateTime::time(). -/
  time : QTime
  /-- The method KDateTime::isDateOnly(). -/
  isDateOnly : Bool
  /-- The method KDateTime::timeSpec(). -/
  timeSpec : Spec
  deriving DecidableEq

namespace KDateTime

/-- The default-constructed value KDateTime(): null date and time, invalid spec. -/
def null : KDateTime := ⟨QDate.null, QTime.null, false, Spec.ofType SpecType.Invalid⟩

/-- The method KDateTime::isValid(): the spec is valid and so are the date and the time. -/
def isValid (dt : KDateTime) : Bool :=
  dt.timeSpec.isValid && dt.date.isValid && dt.time.isValid

/-- The method KDateTime::timeType(). -/
def timeType (dt : KDateTime) : SpecType := dt.timeSpec.type

/-- The method KDateTime::timeZone(). -/
def timeZone (dt : KDateTime) : KTimeZone := dt.timeSpec.timeZone

/-- The setter setDateOnly: a value made date-only has its time set to 00:00:00. -/
def setDateOnly (dt : KDateTime) (dateOnly : Bool) : KDateTime :=
  if dateOnly then ⟨dt.date, ⟨0, 0, 0⟩, true, dt.timeSpec⟩
  else ⟨dt.date, dt.time, false, dt.timeSpec⟩

/-- The setter setDate. -/
def setDate (dt : KDateTime) (d : QDate) : KDateTime :=
  ⟨d, dt.time, dt.isDateOnly, dt.timeSpec⟩

/-- The setter setTime: the value is no longer date-only. -/
def setTime (dt : KDateTime) (t : QTime) : KDateTime :=
  ⟨dt.date, t, false, dt.timeSpec⟩

/-- The setter setTimeSpec. -/
def setTimeSpec (dt : KDateTime) (s : Spec) : KDateTime :=
  ⟨dt.date, dt.time, dt.isDateOnly, s⟩

end KDateTime

/-- The collaborators of the date-time conversion that have no source here, taken as
parameters: the timezone name normalizer, the timezone database and the conversion of a
host value to UTC. -/
structure TimeZones where
  /-- The function TimezoneConverter::normalizeTimezone. -/
  normalizeTimezone : StdString → StdString
  /-- The test QTimeZone::isTimeZoneIdAvailable. -/
  isTimeZoneIdAvailable : StdString → Bool
  /-- The spec KDateTime::Spec(KSystemTimeZones::zone(id)) built for an identifier. -/
  zone : StdString → Spec
  /-- The method KDateTime::toUtc(). -/
  toUtc : KDateTime → KDateTime

/-! ## The date-time conversion -/

/-- The function getTimeSpec(isUtc, timezone). -/
def getTimeSpec (env : TimeZones) (isUtc : Bool) (timezone : StdString) : Spec :=
  if isUtc then
    Spec.ofType SpecType.UTC
  else if timezone.isEmpty then
    Spec.ofType SpecType.ClockTime
  else
    let normalizedTz := env.normalizeTimezone timezone
    if ¬ env.isTimeZoneIdAvailable normalizedTz then
      Spec.ofType SpecType.ClockTime
    else
      env.zone normalizedTz

/-- The function toDate(dt). -/
def toDate (env : TimeZones) (dt : cDateTime) : KDateTime :=
  let date := KDateTime.null
  if ¬ dt.isValid then
    KDateTime.null
  else if dt.isDateOnly then
    let date := date.setDateOnly true
    let date := date.setDate (QDate.ofYMD dt.year dt.month dt.day)
    date.setTimeSpec (Spec.ofType SpecType.ClockTime)
  else
    let date := date.setDate (QDate.ofYMD dt.year dt.month dt.day)
    let date := date.setTime (QTime.ofHMS dt.hour dt.minute dt.second)
    date.setTimeSpec (getTimeSpec env dt.isUTC dt.timezone)

/-- The function fromDate(dt). -/
def fromDate (env : TimeZones) (dt : KDateTime) : cDateTime :=
  if ¬ dt.isValid then
    cDateTime.unset
  else
    let date := cDateTime.unset
    if dt.isDateOnly then
      let d := dt.date
      date.setDate d.year d.month d.day
    else
      let d := dt.date
      let date := date.setDate d.year d.month d.day
      let t := dt.time
      let date := date.setTime t.hour t.minute t.second
      if dt.timeType = SpecType.UTC then
        date.setUTC true
      else if dt.timeType = SpecType.OffsetFromUTC then
        let utcDate := env.toUtc dt
        let d := utcDate.date
        let date := date.setDate d.year d.month d.day
        let t := utcDate.time
        let date := date.setTime t.hour t.minute t.second
        date.setUTC true
      else if dt.timeType = SpecType.TimeZone then
        let timezone := env.normalizeTimezone dt.timeZone.name
        if ¬ timezone.isEmpty then
          date.setTimezone timezone
        else
          date
      else if dt.timeType ≠ SpecType.ClockTime then
        date
      else
        date

/-! ## Sample values -/

/-- A small timezone database: one legacy name is mapped to its Olson name, two Olson
names are known, everything else is unknown. Its toUtc relabels the value as UTC, which
is the conversion for the offset 0 only. -/
def sampleZones : TimeZones :=
  ⟨fun tz =>
      if tz = "W. Europe Standard Time".toList then "Europe/Berlin".toList
      else if tz = "Europe/Berlin".toList ∨ tz = "America/New_York".toList then tz
      else [],
    fun tz => decide (tz = "Europe/Berlin".toList ∨ tz = "America/New_York".toList),
    fun tz => ⟨SpecType.TimeZone, ⟨tz⟩, 0⟩,
    fun dt => dt.setTimeSpec (Spec.ofType SpecType.UTC)⟩

/-- The value with every date component set to 30 February 2021 and the time 10:00:00,
flagged UTC. -/
def feb30Utc : cDateTime := ⟨2021, 2, 30, 10, 0, 0, true, []⟩

/-- The date-only value with the date components 30 February 2021. -/
def feb30 : cDateTime := ⟨2021, 2, 30, -1, -1, -1, false, []⟩

/-- The value 14 March 2021, 15:09:26, flagged UTC. -/
def piDayUtc : cDateTime := ⟨2021, 3, 14, 15, 9, 26, true, []⟩

/-- The date-only value 14 March 2021. -/
def piDay : cDateTime := ⟨2021, 3, 14, -1, -1, -1, false, []⟩

/-- The host value 14 March 2021, 15:09:26 in the zone named "W. Europe Standard Time". -/
def piDayBerlin : KDateTime :=
  ⟨⟨2021, 3, 14⟩, ⟨15, 9, 26⟩, false, ⟨SpecType.TimeZone, ⟨"W. Europe Standard Time".toList⟩, 0⟩⟩

/-! ## Lemmas on the string operations -/

theorem c_str_eq_self (s : StdString) (h : '\x00' ∉ s) : c_str s = s := by
  unfold c_str
  rw [List.takeWhile_eq_self_iff]
  intro x hx
  have : x ≠ '\x00' := fun e => h (e ▸ hx)
  simpa using this

theorem fromPercentEncoding_eq_self (s : StdString) (h : '%' ∉ s) :
    fromPercentEncoding s = s := by
  induction s with
  | nil => rfl
  | cons c rest ih =>
    have hc : c ≠ '%' := fun e => h (by simp [e])
    have hr : '%' ∉ rest := fun m => h (List.mem_cons_of_mem _ m)
    unfold fromPercentEncoding
    simp only [hc, if_false]
    rw [ih hr]

/-! ## Lemmas on the text conversions -/

theorem decodeHead_seq (u rest : StdString) (h : isUtf8Seq u = true) :
    ∃ uc, decodeHead (u ++ rest) = some (uc, u.length) ∧ encodeUtf8 uc = u := by
  match u, h with
  | [], h => simp [isUtf8Seq] at h
  | [a], h =>
    simp only [isUtf8Seq, decide_eq_true_eq] at h
    refine ⟨a.toNat, ?_, ?_⟩
    · have h1 : a.toNat < 128 := by omega
      simp [decodeHead, h1]
    · have h1 : a.toNat < 128 := by omega
      simp [encodeUtf8, h1, Char.ofNat_toNat]
  | [a, b], h =>
    simp only [isUtf8Seq, Bool.and_eq_true, decide_eq_true_eq] at h
    obtain ⟨⟨h1, h2⟩, h3, h4⟩ := h
    have n1 : ¬ a.toNat < 128 := by omega
    have n2 : ¬ a.toNat ≤ 193 := by omega
    have n3 : a.toNat < 224 := by omega
    have n4 : ¬ ((a.toNat - 192) * 64 + (b.toNat - 128) < 128) := by omega
    have n5 : (a.toNat - 192) * 64 + (b.toNat - 128) < 2048 := by omega
    have e1 : 192 + ((a.toNat - 192) * 64 + (b.toNat - 128)) / 64 = a.toNat := by omega
    have e2 : 128 + ((a.toNat - 192) * 64 + (b.toNat - 128)) % 64 = b.toNat := by omega
    refine ⟨(a.toNat - 192) * 64 + (b.toNat - 128), ?_, ?_⟩
    · simp [decodeHead, isContinuation, n1, n2, n3, n4, h3, h4]
    · simp only [encodeUtf8, n4, n5, if_false, if_true]
      rw [e1, e2, Char.ofNat_toNat, Char.ofNat_toNat]
  | [a, b, c], h =>
    simp only [isUtf8Seq, Bool.and_eq_true, Bool.or_eq_true, decide_eq_true_eq] at h
    obtain ⟨hab, h5, h6⟩ := h
    have hb : 128 ≤ b.toNat ∧ b.toNat ≤ 191 := by omega
    have n1 : ¬ a.toNat < 128 := by omega
    have n2 : ¬ a.toNat ≤ 193 := by omega
    have n3 : ¬ a.toNat < 224 := by omega
    have n3b : a.toNat < 240 := by omega
    have n4 : ¬ ((a.toNat - 224) * 4096 + (b.toNat - 128) * 64 + (c.toNat - 128) < 2048) := by
      omega
    have n5 : ¬ (55296 ≤ (a.toNat - 224) * 4096 + (b.toNat - 128) * 64 + (c.toNat - 128) ∧
        (a.toNat - 224) * 4096 + (b.toNat - 128) * 64 + (c.toNat - 128) ≤ 57343) := by
      omega
    have n6 : ¬ ((a.toNat - 224) * 4096 + (b.toNat - 128) * 64 + (c.toNat - 128) < 128) := by
      omega
    have n7 : (a.toNat - 224) * 4096 + (b.toNat - 128) * 64 + (c.toNat - 128) < 65536 := by
      omega
    have e1 : 224 + ((a.toNat - 224) * 4096 + (b.toNat - 128) * 64 + (c.toNat - 128)) / 4096
        = a.toNat := by omega
    have e2 : 128 + ((a.toNat - 224) * 4096 + (b.toNat - 128) * 64 + (c.toNat - 128)) / 64 % 64
        = b.toNat := by omega
    have e3 : 128 + ((a.toNat - 224) * 4096 + (b.toNat - 128) * 64 + (c.toNat - 128)) % 64
        = c.toNat := by omega
    refine ⟨(a.toNat - 224) * 4096 + (b.toNat - 128) * 64 + (c.toNat - 128), ?_, ?_⟩
    · simp [decodeHead, isContinuation, n1, n2, n3, n3b, n4, n5, hb, h5, h6]
    · simp only [encodeUtf8, n4, n6, n7, if_false, if_true]
      rw [e1, e2, e3, Char.ofNat_toNat, Char.ofNat_toNat, Char.ofNat_toNat]
  | [a, b, c, d], h =>
    simp only [isUtf8Seq, Bool.and_eq_true, Bool.or_eq_true, decide_eq_true_eq] at h
    obtain ⟨⟨hab, h5, h6⟩, h7, h8⟩ := h
    have hb : 128 ≤ b.toNat ∧ b.toNat ≤ 191 := by omega
    have n1 : ¬ a.toNat < 128 := by omega
    have n2 : ¬ a.toNat ≤ 193 := by omega
    have n3 : ¬ a.toNat < 224 := by omega
    have n3b : ¬ a.toNat < 240 := by omega
    have n3c : a.toNat < 245 := by omega
    have n4 : ¬ ((a.toNat - 240) * 262144 + (b.toNat - 128) * 4096 + (c.toNat - 128) * 64
        + (d.toNat - 128) < 65536) := by omega
    have n5 : ¬ (1114111 < (a.toNat - 240) * 262144 + (b.toNat - 128) * 4096
        + (c.toNat - 128) * 64 + (d.toNat - 128)) := by omega
    have n6 : ¬ ((a.toNat - 240) * 262144 + (b.toNat - 128) * 4096 + (c.toNat - 128) * 64
        + (d.toNat - 128) < 128) := by omega
    have n7 : ¬ ((a.toNat - 240) * 262144 + (b.toNat - 128) * 4096 + (c.toNat - 128) * 64
        + (d.toNat - 128) < 2048) := by omega
    have e1 : 240 + ((a.toNat - 240) * 262144 + (b.toNat - 128) * 4096 + (c.toNat - 128) * 64
        + (d.toNat - 128)) / 262144 = a.toNat := by omega
    have e2 : 128 + ((a.toNat - 240) * 262144 + (b.toNat - 128) * 4096 + (c.toNat - 128) * 64
        + (d.toNat - 128)) / 4096 % 64 = b.toNat := by omega
    have e3 : 128 + ((a.toNat - 240) * 262144 + (b.toNat - 128) * 4096 + (c.toNat - 128) * 64
        + (d.toNat - 128)) / 64 % 64 = c.toNat := by omega
    have e4 : 128 + ((a.toNat - 240) * 262144 + (b.toNat - 128) * 4096 + (c.toNat - 128) * 64
        + (d.toNat - 128)) % 64 = d.toNat := by omega
    refine ⟨(a.toNat - 240) * 262144 + (b.toNat - 128) * 4096 + (c.toNat - 128) * 64
        + (d.toNat - 128), ?_, ?_⟩
    · simp [decodeHead, isContinuation, n1, n2, n3, n3b, n3c, n4, n5, hb, h5, h6, h7, h8]
    · simp only [encodeUtf8, n4, n6, n7, if_false, if_true]
      rw [e1, e2, e3, e4, Char.ofNat_toNat, Char.ofNat_toNat, Char.ofNat_toNat,
        Char.ofNat_toNat]
  | _ :: _ :: _ :: _ :: _ :: _, h => simp [isUtf8Seq] at h

theorem fromUtf8Aux_skip (v rest : StdString) :
    fromUtf8Aux v.length (v ++ rest) = fromUtf8Aux 0 rest := by
  induction v with
  | nil => rfl
  | cons x xs ih =>
    rw [List.length_cons, List.cons_append, fromUtf8Aux]
    exact ih

theorem recode_seq (u rest : StdString) (h : isUtf8Seq u = true) :
    toUtf8 (fromUtf8Aux 0 (u ++ rest)) = u ++ toUtf8 (fromUtf8Aux 0 rest) := by
  obtain ⟨uc, hd, he⟩ := decodeHead_seq u rest h
  cases u with
  | nil => simp [isUtf8Seq] at h
  | cons a v =>
    rw [List.cons_append] at hd ⊢
    rw [fromUtf8Aux, hd]
    simp only [List.length_cons, Nat.add_sub_cancel]
    rw [fromUtf8Aux_skip, toUtf8, he, List.cons_append]

theorem recode_wellFormed (s : StdString) (h : WellFormedUtf8 s) :
    toUtf8 (fromUtf8Aux 0 s) = s := by
  induction h with
  | nil => rfl
  | seq u rest hu _ ih => rw [recode_seq u rest hu, ih]

theorem wellFormed_append (a b : StdString) (ha : WellFormedUtf8 a) (hb : WellFormedUtf8 b) :
    WellFormedUtf8 (a ++ b) := by
  induction ha with
  | nil => exact hb
  | seq u rest hu _ ih =>
    rw [List.append_assoc]
    exact WellFormedUtf8.seq u (rest ++ b) hu ih

theorem wellFormed_of_ascii (s : StdString) (h : ∀ c ∈ s, c.toNat < 128) :
    WellFormedUtf8 s := by
  induction s with
  | nil => exact WellFormedUtf8.nil
  | cons c rest ih =>
    have hc : c.toNat < 128 := h c (List.mem_cons_self c rest)
    have hseq : isUtf8Seq [c] = true := by
      simp only [isUtf8Seq, decide_eq_true_eq]
      omega
    exact WellFormedUtf8.seq [c] rest hseq
      (ih (fun x hx => h x (List.mem_cons_of_mem c hx)))

theorem skipBom_of_ascii_head (c : Char) (rest : StdString) (h : c.toNat < 128) :
    skipBom (c :: rest) = c :: rest := by
  match rest with
  | [] => rfl
  | [_] => rfl
  | x :: y :: r =>
    have hne : ¬ (c.toNat = 239 ∧ x.toNat = 187 ∧ y.toNat = 191) := by omega
    simp only [skipBom]
    rw [if_neg hne]

theorem decodedString_eq_self (s : StdString) (h0 : '\x00' ∉ s) (hp : '%' ∉ s)
    (hb : skipBom s = s) (hw : WellFormedUtf8 s) : decodedString s = s := by
  unfold decodedString toStdString QUrl.fromPercentEncoding fromUtf8
  rw [c_str_eq_self s h0, fromPercentEncoding_eq_self s hp, hb]
  exact recode_wellFormed s hw

theorem findAux_first (c : Char) (l : StdString) (i n : Nat)
    (hn : l[n]? = some c) (hlt : ∀ k, k < n → l[k]? ≠ some c) :
    StdString.findAux c l i = some (i + n) := by
  induction l generalizing i n with
  | nil => simp at hn
  | cons x xs ih =>
    cases n with
    | zero =>
      have hx : x = c := by simpa using hn
      simp [StdString.findAux, hx]
    | succ m =>
      have hx : x ≠ c := by
        have := hlt 0 (Nat.succ_pos m)
        simpa using this
      have hm : xs[m]? = some c := by simpa using hn
      have hlt2 : ∀ k, k < m → xs[k]? ≠ some c := by
        intro k hk
        have := hlt (k + 1) (Nat.succ_lt_succ hk)
        simpa using this
      simp only [StdString.findAux, hx, if_false]
      rw [ih (i + 1) m hm hlt2]
      congr 1
      omega

theorem findAux_none (c : Char) (l : StdString) (i : Nat)
    (h : ∀ k : Nat, l[k]? ≠ some c) : StdString.findAux c l i = none := by
  induction l generalizing i with
  | nil => rfl
  | cons x xs ih =>
    have hx : x ≠ c := by
      have := h 0
      simpa using this
    have h2 : ∀ k : Nat, xs[k]? ≠ some c := by
      intro k
      have := h (k + 1)
      simpa using this
    simp only [StdString.findAux, hx, if_false]
    exact ih (i + 1) h2

theorem findAux_some (c : Char) (l : StdString) (i j : Nat)
    (h : StdString.findAux c l i = some j) :
    ∃ n, j = i + n ∧ l[n]? = some c ∧ ∀ k, k < n → l[k]? ≠ some c := by
  induction l generalizing i with
  | nil => simp [StdString.findAux] at h
  | cons x xs ih =>
    by_cases hx : x = c
    · simp only [StdString.findAux, hx, if_true, Option.some.injEq] at h
      refine ⟨0, by omega, by simp [hx], ?_⟩
      intro k hk
      omega
    · simp only [StdString.findAux, hx, if_false] at h
      obtain ⟨n, hj, hn, hlt⟩ := ih (i + 1) h
      refine ⟨n + 1, by omega, by simpa using hn, ?_⟩
      intro k hk
      cases k with
      | zero => simpa using hx
      | succ m =>
        have := hlt m (by omega)
        simpa using this

theorem find_of_firstAt (s : StdString) (c : Char) (pos b : Nat) (h : FirstAt s c pos b) :
    StdString.find s c pos = some b := by
  obtain ⟨hle, hb, hlt⟩ := h
  unfold StdString.find
  have := findAux_first c (s.drop pos) pos (b - pos)
    (by rw [List.getElem?_drop]; rw [Nat.add_sub_cancel' hle]; exact hb)
    (by
      intro k hk
      rw [List.getElem?_drop]
      exact hlt (pos + k) (by omega) (by omega))
  rw [this]
  congr 1
  omega

theorem find_of_noneFrom (s : StdString) (c : Char) (pos : Nat) (h : NoneFrom s c pos) :
    StdString.find s c pos = none := by
  unfold StdString.find
  apply findAux_none
  intro k
  rw [List.getElem?_drop]
  exact h (pos + k) (by omega)

theorem firstAt_of_find (s : StdString) (c : Char) (pos b : Nat)
    (h : StdString.find s c pos = some b) : FirstAt s c pos b := by
  unfold StdString.find at h
  obtain ⟨n, hj, hn, hlt⟩ := findAux_some c (s.drop pos) pos b h
  rw [List.getElem?_drop] at hn
  refine ⟨by omega, by rw [hj]; exact hn, ?_⟩
  intro k hk1 hk2
  have := hlt (k - pos) (by omega)
  rw [List.getElem?_drop, Nat.add_sub_cancel' hk1] at this
  exact this

theorem lt_length_of_getElem? (s : StdString) (c : Char) (b : Nat) (h : s[b]? = some c) :
    b < s.length := by
  rcases List.getElem?_eq_some.mp h with ⟨hb, _⟩
  exact hb

theorem findAux_append (c : Char) (a r : StdString) (i : Nat) (h : c ∉ a) :
    StdString.findAux c (a ++ c :: r) i = some (i + a.length) := by
  induction a generalizing i with
  | nil => simp [StdString.findAux]
  | cons x xs ih =>
    have hx : x ≠ c := fun e => h (by simp [e])
    have hxs : c ∉ xs := fun m => h (List.mem_cons_of_mem _ m)
    rw [List.cons_append, StdString.findAux, if_neg hx, ih (i + 1) hxs, List.length_cons]
    congr 1
    omega

theorem compare_ne_zero_iff (a b : StdString) : StdString.compare a b ≠ 0 ↔ a ≠ b := by
  unfold StdString.compare
  by_cases h : a = b
  · simp [h]
  · simp only [h, if_false, ne_eq, not_false_eq_true, iff_true]
    split <;> decide

theorem mailtoScheme_length : mailtoScheme.length = 7 := by decide

theorem take_seven_of_scheme (s : StdString) (h : mailtoScheme <+: s) :
    s.take 7 = mailtoScheme := by
  have := List.prefix_iff_eq_take.mp h
  rw [mailtoScheme_length] at this
  exact this.symm

theorem scheme_of_take_seven (s : StdString) (h : s.take 7 = mailtoScheme) :
    mailtoScheme <+: s := by
  rw [← h]
  exact List.take_prefix 7 s

theorem substr_head (s : StdString) : StdString.substr s 0 7 = some (s.take 7) := by
  simp [StdString.substr]

/-! ## Lemmas on fromMailtoDecoded, one for each return statement -/

theorem fromMailtoDecoded_other_scheme (s : StdString) (h : ¬ mailtoScheme <+: s) :
    fromMailtoDecoded s = some (s, []) := by
  have hne : s.take 7 ≠ mailtoScheme := fun e => h (scheme_of_take_seven s e)
  have hc := (compare_ne_zero_iff (s.take 7) mailtoScheme).mpr hne
  simp only [fromMailtoDecoded, substr_head]
  rw [if_pos hc]

theorem fromMailtoDecoded_no_open (s : StdString) (h : mailtoScheme <+: s)
    (hb : StdString.find s '<' 7 = none) : fromMailtoDecoded s = some (s, []) := by
  have hc : ¬ StdString.compare (s.take 7) mailtoScheme ≠ 0 := by
    rw [compare_ne_zero_iff]
    simp [take_seven_of_scheme s h]
  simp only [fromMailtoDecoded, substr_head]
  rw [if_neg hc, hb]

theorem fromMailtoDecoded_no_close (s : StdString) (b : Nat) (h : mailtoScheme <+: s)
    (hb : StdString.find s '<' 7 = some b) (he : StdString.find s '>' b = none) :
    fromMailtoDecoded s = some (s, []) := by
  have hc : ¬ StdString.compare (s.take 7) mailtoScheme ≠ 0 := by
    rw [compare_ne_zero_iff]
    simp [take_seven_of_scheme s h]
  simp only [fromMailtoDecoded, substr_head]
  rw [if_neg hc, hb]
  simp only [he]

theorem find_bounds (s : StdString) (b e : Nat)
    (hb : StdString.find s '<' 7 = some b) (he : StdString.find s '>' b = some e) :
    7 ≤ b ∧ b < e ∧ e < s.length := by
  obtain ⟨hb1, hb2, _⟩ := firstAt_of_find s '<' 7 b hb
  obtain ⟨he1, he2, _⟩ := firstAt_of_find s '>' b e he
  have hlen := lt_length_of_getElem? s '>' e he2
  have hne : b ≠ e := by
    intro heq
    rw [heq, he2] at hb2
    exact absurd hb2 (by decide)
  omega

theorem fromMailtoDecoded_success (s : StdString) (b e : Nat) (h : mailtoScheme <+: s)
    (hb : StdString.find s '<' 7 = some b) (he : StdString.find s '>' b = some e) :
    fromMailtoDecoded s = some (slice s (b + 1) e, slice s 7 b) := by
  obtain ⟨h1, h2, h3⟩ := find_bounds s b e hb he
  have hc : ¬ StdString.compare (s.take 7) mailtoScheme ≠ 0 := by
    rw [compare_ne_zero_iff]
    simp [take_seven_of_scheme s h]
  have hs1 : sizeSub b 7 = b - 7 := by simp [sizeSub, h1]
  have hs2 : sizeSub (sizeSub e b) 1 = e - (b + 1) := by
    have : sizeSub e b = e - b := by simp [sizeSub, Nat.le_of_lt h2]
    rw [this]
    have h4 : 1 ≤ e - b := by omega
    simp only [sizeSub, h4, if_true]
    omega
  simp only [fromMailtoDecoded, substr_head]
  rw [if_neg hc, hb]
  simp only [he, hs1, hs2, StdString.substr]
  rw [if_pos (by omega), if_pos (by omega)]
  simp only [slice, List.drop_take]

theorem mailtoScheme_eq : mailtoScheme = ['m', 'a', 'i', 'l', 't', 'o', ':'] := rfl

theorem wellFormed_cons_ascii (c : Char) (rest : StdString) (hc : c.toNat < 128)
    (h : WellFormedUtf8 rest) : WellFormedUtf8 (c :: rest) := by
  have hseq : isUtf8Seq [c] = true := by
    simp only [isUtf8Seq, decide_eq_true_eq]
    omega
  exact WellFormedUtf8.seq [c] rest hseq h

/-- The round trip of the codec on well-formed UTF-8 strings without NUL and percent sign,
under the condition on the two delimiters. -/
theorem roundtrip_core (email name : StdString)
    (hn : '<' ∉ name) (hnp : '%' ∉ name) (hn0 : '\x00' ∉ name) (hnw : WellFormedUtf8 name)
    (he : '>' ∉ email) (hep : '%' ∉ email) (he0 : '\x00' ∉ email)
    (hew : WellFormedUtf8 email) :
    fromMailto (mailtoScheme ++ (name ++ '<' :: (email ++ ['>']))) = some (email, name) := by
  have hdec : decodedString (mailtoScheme ++ (name ++ '<' :: (email ++ ['>'])))
      = mailtoScheme ++ (name ++ '<' :: (email ++ ['>'])) := by
    apply decodedString_eq_self
    · simp [mailtoScheme_eq, hn0, he0]
    · simp [mailtoScheme_eq, hnp, hep]
    · rw [mailtoScheme_eq]
      exact skipBom_of_ascii_head 'm' _ (by decide)
    · apply wellFormed_append
      · exact wellFormed_of_ascii mailtoScheme (by decide)
      · apply wellFormed_append _ _ hnw
        apply wellFormed_cons_ascii '<' _ (by decide)
        apply wellFormed_append _ _ hew
        exact wellFormed_cons_ascii '>' [] (by decide) WellFormedUtf8.nil
  unfold fromMailto
  rw [hdec]
  have hdrop7 : (mailtoScheme ++ (name ++ '<' :: (email ++ ['>']))).drop 7
      = name ++ '<' :: (email ++ ['>']) := List.drop_left mailtoScheme _
  have hb : StdString.find (mailtoScheme ++ (name ++ '<' :: (email ++ ['>']))) '<' 7
      = some (7 + name.length) := by
    unfold StdString.find
    rw [hdrop7]
    exact findAux_append '<' name _ 7 hn
  have hdropb : (mailtoScheme ++ (name ++ '<' :: (email ++ ['>']))).drop (7 + name.length)
      = '<' :: (email ++ ['>']) := by
    rw [← List.append_assoc]
    have hl : (mailtoScheme ++ name).length = 7 + name.length := by
      rw [List.length_append, mailtoScheme_length]
    rw [← hl]
    exact List.drop_left _ _
  have hgt : ('<' : Char) ≠ '>' := by decide
  have he2 : StdString.find (mailtoScheme ++ (name ++ '<' :: (email ++ ['>']))) '>'
      (7 + name.length) = some (7 + name.length + 1 + email.length) := by
    unfold StdString.find
    rw [hdropb, StdString.findAux, if_neg hgt]
    exact findAux_append '>' email [] (7 + name.length + 1) he
  rw [fromMailtoDecoded_success _ _ _ (List.prefix_append _ _) hb he2]
  have hname : slice (mailtoScheme ++ (name ++ '<' :: (email ++ ['>']))) 7 (7 + name.length)
      = name := by
    unfold slice
    rw [List.drop_take, hdrop7]
    have : 7 + name.length - 7 = name.length := by omega
    rw [this]
    exact List.take_left name _
  have hemail : slice (mailtoScheme ++ (name ++ '<' :: (email ++ ['>'])))
      (7 + name.length + 1) (7 + name.length + 1 + email.length) = email := by
    unfold slice
    rw [List.drop_take, ← List.drop_drop, hdropb]
    have : 7 + name.length + 1 + email.length - (7 + name.length + 1) = email.length := by
      omega
    rw [this]
    exact List.take_left email _
  rw [hname, hemail]

theorem toMailto_eq (email name : StdString) :
    toMailto email name = mailtoScheme ++ (name ++ '<' :: (email ++ ['>'])) := by
  cases name with
  | nil => rfl
  | cons c cs => simp [toMailto]

theorem literal_form (email name : StdString) :
    "mailto:".toList ++ name ++ "<".toList ++ email ++ ">".toList
      = mailtoScheme ++ (name ++ '<' :: (email ++ ['>'])) := by
  show mailtoScheme ++ name ++ ['<'] ++ email ++ ['>'] = _
  simp only [List.append_assoc, List.singleton_append, List.cons_append, List.nil_append]

theorem noneFrom_of_find (s : StdString) (c : Char) (pos : Nat)
    (h : StdString.find s c pos = none) : NoneFrom s c pos := by
  intro k hk hc
  have hex : ∃ n, pos ≤ n ∧ s[n]? = some c := ⟨k, hk, hc⟩
  classical
  obtain ⟨h1, h2⟩ := Nat.find_spec hex
  have hfirst : FirstAt s c pos (Nat.find hex) := by
    refine ⟨h1, h2, ?_⟩
    intro m hm1 hm2 hm3
    exact Nat.find_min hex hm2 ⟨hm1, hm3⟩
  rw [find_of_firstAt s c pos _ hfirst] at h
  exact Option.noConfusion h

theorem firstAt_close (s : StdString) (b e : Nat) (hb : s[b]? = some '<')
    (he : FirstAt s '>' (b + 1) e) : FirstAt s '>' b e := by
  obtain ⟨h1, h2, h3⟩ := he
  refine ⟨by omega, h2, ?_⟩
  intro k hk1 hk2
  by_cases hkb : k = b
  · rw [hkb, hb]
    decide
  · exact h3 k (by omega) hk2

theorem noneFrom_close (s : StdString) (b : Nat) (hb : s[b]? = some '<')
    (he : NoneFrom s '>' (b + 1)) : NoneFrom s '>' b := by
  intro k hk
  by_cases hkb : k = b
  · rw [hkb, hb]
    decide
  · exact he k (by omega)

theorem fromMailtoDecoded_isSome (s : StdString) : (fromMailtoDecoded s).isSome = true := by
  by_cases h : mailtoScheme <+: s
  · cases hb : StdString.find s '<' 7 with
    | none => rw [fromMailtoDecoded_no_open s h hb]; rfl
    | some b =>
      cases he : StdString.find s '>' b with
      | none => rw [fromMailtoDecoded_no_close s b h hb he]; rfl
      | some e => rw [fromMailtoDecoded_success s b e h hb he]; rfl
  · rw [fromMailtoDecoded_other_scheme s h]; rfl

/-! ## The mailto codec: the claims -/

/-- C1, as stated, fails: the name "%41" and the email "a@b.com" are ASCII and hold
neither angle bracket, yet decoding "mailto:%41<a@b.com>" returns the name "A", because
the decoder resolves the percent escape that toMailto never produced. -/
theorem mailto_roundtrip_percent_counterexample :
    (∀ c ∈ "%41".toList, c ≠ '<' ∧ c ≠ '>' ∧ c.toNat < 128) ∧
    (∀ c ∈ "a@b.com".toList, c ≠ '<' ∧ c ≠ '>' ∧ c.toNat < 128) ∧
    toMailto "a@b.com".toList "%41".toList = "mailto:%41<a@b.com>".toList ∧
    fromMailto "mailto:%41<a@b.com>".toList = some ("a@b.com".toList, "A".toList) ∧
    fromMailto "mailto:%41<a@b.com>".toList ≠ some ("a@b.com".toList, "%41".toList) := by
  decide

/-- C1, amended: for every email and display name made of ASCII characters other than the
two angle brackets, the percent sign and NUL, toMailto builds the string
"mailto:" + name + "<" + email + ">", and fromMailto decodes that string to the pair
(email, name). -/
theorem mailto_roundtrip_ascii (email name : StdString)
    (hn : ∀ c ∈ name, c.toNat < 128 ∧ c ≠ '<' ∧ c ≠ '>' ∧ c ≠ '%' ∧ c ≠ '\x00')
    (he : ∀ c ∈ email, c.toNat < 128 ∧ c ≠ '<' ∧ c ≠ '>' ∧ c ≠ '%' ∧ c ≠ '\x00') :
    toMailto email name = "mailto:".toList ++ name ++ "<".toList ++ email ++ ">".toList ∧
    fromMailto (toMailto email name) = some (email, name) := by
  have key := roundtrip_core email name
    (fun m => (hn _ m).2.1 rfl) (fun m => (hn _ m).2.2.2.1 rfl) (fun m => (hn _ m).2.2.2.2 rfl)
    (wellFormed_of_ascii name (fun c m => (hn c m).1))
    (fun m => (he _ m).2.2.1 rfl) (fun m => (he _ m).2.2.2.1 rfl) (fun m => (he _ m).2.2.2.2 rfl)
    (wellFormed_of_ascii email (fun c m => (he c m).1))
  refine ⟨?_, ?_⟩
  · rw [literal_form, toMailto_eq]
  · rw [toMailto_eq]
    exact key

/-- C1, amended, at the instance of the specification: email "a@b.com", name "Alice". -/
theorem mailto_roundtrip_ascii_witness :
    toMailto "a@b.com".toList "Alice".toList = "mailto:Alice<a@b.com>".toList ∧
    fromMailto (toMailto "a@b.com".toList "Alice".toList)
      = some ("a@b.com".toList, "Alice".toList) :=
  mailto_roundtrip_ascii "a@b.com".toList "Alice".toList (by decide) (by decide)

/-- C2: when the decoded string s starts with "mailto:", its first "<" at or after index 7
is at index b and its first ">" after b is at index e, fromMailto returns the pair
(email, name) with name = s[7 .. b) and email = s[b+1 .. e). -/
theorem fromMailto_wellformed (mailto : StdString) (b e : Nat)
    (hs : mailtoScheme <+: decodedString mailto)
    (hb : FirstAt (decodedString mailto) '<' 7 b)
    (he : FirstAt (decodedString mailto) '>' (b + 1) e) :
    fromMailto mailto
      = some (slice (decodedString mailto) (b + 1) e, slice (decodedString mailto) 7 b) := by
  unfold fromMailto
  exact fromMailtoDecoded_success _ b e hs (find_of_firstAt _ _ _ _ hb)
    (find_of_firstAt _ _ _ _ (firstAt_close _ b e hb.2.1 he))

/-- C2 at the input "mailto:Alice<a@b.com>", where b = 12 and e = 20. -/
theorem fromMailto_wellformed_witness :
    slice (decodedString "mailto:Alice<a@b.com>".toList) 7 12 = "Alice".toList ∧
    slice (decodedString "mailto:Alice<a@b.com>".toList) 13 20 = "a@b.com".toList ∧
    fromMailto "mailto:Alice<a@b.com>".toList
      = some (slice (decodedString "mailto:Alice<a@b.com>".toList) 13 20,
          slice (decodedString "mailto:Alice<a@b.com>".toList) 7 12) :=
  ⟨by decide, by decide,
    fromMailto_wellformed "mailto:Alice<a@b.com>".toList 12 20
      (scheme_of_take_seven _ (by decide))
      (firstAt_of_find _ _ _ _ (by decide))
      (firstAt_of_find _ _ _ _ (by decide))⟩

/-- C3: when the decoded string s is shorter than 7 characters, or does not start with
"mailto:", or holds no "<" at or after index 7, or holds no ">" after its first such "<",
fromMailto returns (s, ""): the whole decoded string as email and the empty name. -/
theorem fromMailto_malformed (mailto : StdString)
    (h : (decodedString mailto).length < 7 ∨
      ¬ mailtoScheme <+: decodedString mailto ∨
      NoneFrom (decodedString mailto) '<' 7 ∨
      ∃ b, FirstAt (decodedString mailto) '<' 7 b ∧ NoneFrom (decodedString mailto) '>' (b + 1)) :
    fromMailto mailto = some (decodedString mailto, []) := by
  unfold fromMailto
  by_cases hs : mailtoScheme <+: decodedString mailto
  · rcases h with h | h | h | ⟨b, hb, he⟩
    · have := hs.length_le
      rw [mailtoScheme_length] at this
      omega
    · exact absurd hs h
    · exact fromMailtoDecoded_no_open _ hs (find_of_noneFrom _ _ _ h)
    · exact fromMailtoDecoded_no_close _ b hs (find_of_firstAt _ _ _ _ hb)
        (find_of_noneFrom _ _ _ (noneFrom_close _ b hb.2.1 he))
  · exact fromMailtoDecoded_other_scheme _ hs

/-- C3 at the input "mailto:plain@x.com", which holds no "<". -/
theorem fromMailto_malformed_witness :
    fromMailto "mailto:plain@x.com".toList = some ("mailto:plain@x.com".toList, []) :=
  fromMailto_malformed "mailto:plain@x.com".toList
    (Or.inr (Or.inr (Or.inl (noneFrom_of_find _ _ _ (by decide)))))

/-- C9, as stated, fails, in three ways. The name "a", NUL, "b" holds neither "<" nor a
percent sign, yet the C string handed to the decoder ends at the NUL, so that fromMailto
sees "mailto:a" and returns it whole. The name "Andr" followed by the lone byte 0xE9 holds
neither "<" nor a percent sign, yet the byte starts no well-formed UTF-8 sequence and comes
back as the three bytes of U+FFFD. And the condition is not exact: the email "a%" holds a
percent sign and still round-trips, since no two characters follow the percent sign within
the string. -/
theorem mailto_roundtrip_exact_counterexample :
    ('<' ∉ "a\x00b".toList ∧ '%' ∉ "a\x00b".toList ∧
      '>' ∉ "x@y".toList ∧ '%' ∉ "x@y".toList ∧
      fromMailto
          ("mailto:".toList ++ "a\x00b".toList ++ "<".toList ++ "x@y".toList ++ ">".toList)
        = some ("mailto:a".toList, []) ∧
      fromMailto
          ("mailto:".toList ++ "a\x00b".toList ++ "<".toList ++ "x@y".toList ++ ">".toList)
        ≠ some ("x@y".toList, "a\x00b".toList)) ∧
    ('<' ∉ "Andr\xE9".toList ∧ '%' ∉ "Andr\xE9".toList ∧ '\x00' ∉ "Andr\xE9".toList ∧
      fromMailto
          ("mailto:".toList ++ "Andr\xE9".toList ++ "<".toList ++ "x@y".toList ++ ">".toList)
        = some ("x@y".toList, "Andr\xEF\xBF\xBD".toList) ∧
      fromMailto
          ("mailto:".toList ++ "Andr\xE9".toList ++ "<".toList ++ "x@y".toList ++ ">".toList)
        ≠ some ("x@y".toList, "Andr\xE9".toList)) ∧
    ('%' ∈ "a%".toList ∧
      fromMailto ("mailto:".toList ++ "A".toList ++ "<".toList ++ "a%".toList ++ ">".toList)
        = some ("a%".toList, "A".toList)) := by
  decide

/-- C9, amended: for every name that is well-formed UTF-8 and holds no "<", no percent sign
and no NUL, and every email that is well-formed UTF-8 and holds no ">", no percent sign and
no NUL, fromMailto("mailto:" + name + "<" + email + ">") = (email, name). -/
theorem mailto_roundtrip_exact (email name : StdString)
    (hn : '<' ∉ name) (hnp : '%' ∉ name) (hn0 : '\x00' ∉ name) (hnw : WellFormedUtf8 name)
    (he : '>' ∉ email) (hep : '%' ∉ email) (he0 : '\x00' ∉ email)
    (hew : WellFormedUtf8 email) :
    fromMailto ("mailto:".toList ++ name ++ "<".toList ++ email ++ ">".toList)
      = some (email, name) := by
  rw [literal_form]
  exact roundtrip_core email name hn hnp hn0 hnw he hep he0 hew

/-- C9, amended, at the name "René>B" in UTF-8 (the two bytes C3 A9 for the accented
letter, and a ">") with an email holding "<", and at the empty name with the empty email. -/
theorem mailto_roundtrip_exact_witness :
    fromMailto
        ("mailto:".toList ++ "Ren\xC3\xA9>B".toList ++ "<".toList ++ "x<y@z".toList
          ++ ">".toList)
      = some ("x<y@z".toList, "Ren\xC3\xA9>B".toList) ∧
    fromMailto ("mailto:".toList ++ [] ++ "<".toList ++ [] ++ ">".toList) = some ([], []) :=
  ⟨mailto_roundtrip_exact "x<y@z".toList "Ren\xC3\xA9>B".toList
      (by decide) (by decide) (by decide)
      (wellFormed_append "Ren".toList "\xC3\xA9>B".toList
        (wellFormed_of_ascii _ (by decide))
        (WellFormedUtf8.seq "\xC3\xA9".toList ">B".toList (by decide)
          (wellFormed_of_ascii _ (by decide))))
      (by decide) (by decide) (by decide) (wellFormed_of_ascii _ (by decide)),
    mailto_roundtrip_exact [] [] (by decide) (by decide) (by decide) WellFormedUtf8.nil
      (by decide) (by decide) (by decide) WellFormedUtf8.nil⟩

/-- C10: fromMailto never raises: for every input, with s the decoded string, the slice
s.substr(0, 7) is in range and fromMailto returns a pair; and whenever the two searches
succeed with results b and e, 7 ≤ b < e < length(s), the two differences b - 7 and
e - b - 1 do not wrap around, and both slices lie within s. -/
theorem fromMailto_never_raises (mailto : StdString) (b e : Nat) :
    (StdString.substr (decodedString mailto) 0 7).isSome = true ∧
    (fromMailto mailto).isSome = true ∧
    (StdString.find (decodedString mailto) '<' 7 = some b →
      StdString.find (decodedString mailto) '>' b = some e →
      7 ≤ b ∧ b < e ∧ e < (decodedString mailto).length ∧
      ((sizeSub b 7 : Nat) : Int) = (b : Int) - 7 ∧
      ((sizeSub (sizeSub e b) 1 : Nat) : Int) = (e : Int) - (b : Int) - 1 ∧
      7 + sizeSub b 7 ≤ (decodedString mailto).length ∧
      b + 1 + sizeSub (sizeSub e b) 1 ≤ (decodedString mailto).length ∧
      (StdString.substr (decodedString mailto) 7 (sizeSub b 7)).isSome = true ∧
      (StdString.substr (decodedString mailto) (b + 1) (sizeSub (sizeSub e b) 1)).isSome
        = true) := by
  refine ⟨by rw [substr_head]; rfl, fromMailtoDecoded_isSome _, ?_⟩
  intro hb he
  obtain ⟨h1, h2, h3⟩ := find_bounds _ b e hb he
  have hs1 : sizeSub b 7 = b - 7 := by simp [sizeSub, h1]
  have hs2 : sizeSub (sizeSub e b) 1 = e - b - 1 := by
    have : sizeSub e b = e - b := by simp [sizeSub, Nat.le_of_lt h2]
    rw [this]
    have h4 : 1 ≤ e - b := by omega
    simp only [sizeSub, h4, if_true]
  rw [hs1, hs2]
  refine ⟨h1, h2, h3, by omega, by omega, by omega, by omega, ?_, ?_⟩
  · simp only [StdString.substr]
    rw [if_pos (by omega)]
    rfl
  · simp only [StdString.substr]
    rw [if_pos (by omega)]
    rfl

/-- C10 at the input "mailto:Alice<a@b.com>", where the searches return 12 and 20. -/
theorem fromMailto_never_raises_witness :
    (fromMailto "mailto:Alice<a@b.com>".toList).isSome = true ∧
    7 ≤ 12 ∧ 12 < 20 ∧ 20 < (decodedString "mailto:Alice<a@b.com>".toList).length :=
  have h := fromMailto_never_raises "mailto:Alice<a@b.com>".toList 12 20
  have hb := h.2.2 (by decide) (by decide)
  ⟨h.2.1, hb.1, hb.2.1, hb.2.2.1⟩

/-! ## The date-time conversion: the claims -/

theorem ofYMD_of_valid (y m d : Int) (h : isValidYMD y m d = true) :
    QDate.ofYMD y m d = ⟨y, m, d⟩ := by
  simp [QDate.ofYMD, h]

theorem ofHMS_of_valid (h m s : Int) (hv : isValidHMS h m s = true) :
    QTime.ofHMS h m s = ⟨h, m, s⟩ := by
  simp [QTime.ofHMS, hv]

/-- C4, as stated, fails: the value 30 February 2021, 10:00:00 UTC is valid for the domain
type and not date-only, yet the host date built from it is null, toDate returns an invalid
host value and fromDate turns it into the unset value, whose year is -1. -/
theorem utc_roundtrip_counterexample :
    feb30Utc.isValid = true ∧ feb30Utc.isDateOnly = false ∧ feb30Utc.isUTC = true ∧
    (toDate sampleZones feb30Utc).isValid = false ∧
    fromDate sampleZones (toDate sampleZones feb30Utc) = cDateTime.unset ∧
    (fromDate sampleZones (toDate sampleZones feb30Utc)).year ≠ feb30Utc.year := by
  decide

/-- C4, amended: for every domain date-time d that is valid, not date-only, flagged UTC,
and whose year, month, day are a calendar date and whose hour, minute, second are a time
of day, fromDate(toDate(d)) has the year, month, day, hour, minute and second of d and is
flagged UTC. -/
theorem utc_roundtrip (env : TimeZones) (d : cDateTime)
    (hv : d.isValid = true) (hdo : d.isDateOnly = false) (hu : d.isUTC = true)
    (hdate : isValidYMD d.year d.month d.day = true)
    (htime : isValidHMS d.hour d.minute d.second = true) :
    (fromDate env (toDate env d)).year = d.year ∧
    (fromDate env (toDate env d)).month = d.month ∧
    (fromDate env (toDate env d)).day = d.day ∧
    (fromDate env (toDate env d)).hour = d.hour ∧
    (fromDate env (toDate env d)).minute = d.minute ∧
    (fromDate env (toDate env d)).second = d.second ∧
    (fromDate env (toDate env d)).isUTC = true := by
  have ht : toDate env d
      = ⟨⟨d.year, d.month, d.day⟩, ⟨d.hour, d.minute, d.second⟩, false,
          Spec.ofType SpecType.UTC⟩ := by
    simp [toDate, hv, hdo, hu, getTimeSpec, ofYMD_of_valid _ _ _ hdate,
      ofHMS_of_valid _ _ _ htime, KDateTime.setDate, KDateTime.setTime,
      KDateTime.setTimeSpec, KDateTime.null]
  rw [ht]
  simp [fromDate, KDateTime.isValid, Spec.isValid, Spec.ofType, QDate.isValid, QTime.isValid,
    hdate, htime, KDateTime.timeType, QDate.year, QDate.month, QDate.day, QTime.hour,
    QTime.minute, QTime.second, cDateTime.setDate, cDateTime.setTime, cDateTime.setUTC,
    cDateTime.unset]

/-- C4, amended, at 14 March 2021, 15:09:26 UTC. -/
theorem utc_roundtrip_witness :
    (fromDate sampleZones (toDate sampleZones piDayUtc)).year = 2021 ∧
    (fromDate sampleZones (toDate sampleZones piDayUtc)).month = 3 ∧
    (fromDate sampleZones (toDate sampleZones piDayUtc)).day = 14 ∧
    (fromDate sampleZones (toDate sampleZones piDayUtc)).hour = 15 ∧
    (fromDate sampleZones (toDate sampleZones piDayUtc)).minute = 9 ∧
    (fromDate sampleZones (toDate sampleZones piDayUtc)).second = 26 ∧
    (fromDate sampleZones (toDate sampleZones piDayUtc)).isUTC = true :=
  utc_roundtrip sampleZones piDayUtc (by decide) (by decide) (by decide) (by decide)
    (by decide)

/-- C5 at the failing input: the date-only value 30 February 2021 is valid for the domain
type, the time-spec of the host value returned by toDate is valid, but the host value
itself is not valid: the second assertion of toDate does not hold. -/
theorem toDate_assertion_fails (env : TimeZones) :
    feb30.isValid = true ∧
    (toDate env feb30).timeSpec.isValid = true ∧
    (toDate env feb30).isValid = false := by
  refine ⟨by decide, ?_, ?_⟩
  · rfl
  · rfl

/-- C6: getTimeSpec(false, tz) is a total function; it returns the ClockTime spec whenever
tz is empty or the normalized form of tz is not an available timezone id; a result of the
kind TimeZone occurs only when tz is not empty and its normalized form is available; and
in that case the result is the spec of the zone looked up under the normalized form. -/
theorem getTimeSpec_degrades (env : TimeZones) (tz : StdString) :
    ((tz = [] ∨ env.isTimeZoneIdAvailable (env.normalizeTimezone tz) = false) →
      getTimeSpec env false tz = Spec.ofType SpecType.ClockTime) ∧
    ((getTimeSpec env false tz).type = SpecType.TimeZone →
      tz ≠ [] ∧ env.isTimeZoneIdAvailable (env.normalizeTimezone tz) = true) ∧
    (tz ≠ [] → env.isTimeZoneIdAvailable (env.normalizeTimezone tz) = true →
      getTimeSpec env false tz = env.zone (env.normalizeTimezone tz)) := by
  refine ⟨?_, ?_, ?_⟩
  · intro h
    rcases h with h | h
    · simp [getTimeSpec, h]
    · simp [getTimeSpec, h]
  · intro h
    by_cases h1 : tz = []
    · simp [getTimeSpec, h1, Spec.ofType] at h
    · by_cases h2 : env.isTimeZoneIdAvailable (env.normalizeTimezone tz) = true
      · exact ⟨h1, h2⟩
      · simp [getTimeSpec, h1, h2, Spec.ofType] at h
  · intro h1 h2
    simp [getTimeSpec, h1, h2]

/-- C6 at the unknown identifier "Not/AZone" and at the legacy name
"W. Europe Standard Time", whose normalized form "Europe/Berlin" is available. -/
theorem getTimeSpec_degrades_witness :
    getTimeSpec sampleZones false "Not/AZone".toList = Spec.ofType SpecType.ClockTime ∧
    getTimeSpec sampleZones false "W. Europe Standard Time".toList
      = ⟨SpecType.TimeZone, ⟨"Europe/Berlin".toList⟩, 0⟩ :=
  ⟨(getTimeSpec_degrades sampleZones "Not/AZone".toList).1 (Or.inr (by decide)),
    (getTimeSpec_degrades sampleZones "W. Europe Standard Time".toList).2.2
      (by decide) (by decide)⟩

/-- C7, as stated, fails: the date-only value 30 February 2021 is valid for the domain type,
yet fromDate(toDate(d)) is the unset value, which does not carry the year, month and day
of d. -/
theorem floating_roundtrip_counterexample :
    feb30.isValid = true ∧ feb30.isDateOnly = true ∧
    fromDate sampleZones (toDate sampleZones feb30) = cDateTime.unset ∧
    (fromDate sampleZones (toDate sampleZones feb30)).year ≠ feb30.year ∧
    (fromDate sampleZones (toDate sampleZones feb30)).month ≠ feb30.month ∧
    (fromDate sampleZones (toDate sampleZones feb30)).day ≠ feb30.day := by
  decide

/-- C7, amended: for every valid domain date-time d that is date-only, or that has an empty
timezone and is not flagged UTC, fromDate(toDate(d)) has an empty timezone and is not
flagged UTC; and for date-only d whose year, month, day are a calendar date, the result
carries the year, month and day of d. -/
theorem floating_roundtrip (env : TimeZones) (d : cDateTime)
    (hv : d.isValid = true)
    (h : d.isDateOnly = true ∨ (d.timezone = [] ∧ d.isUTC = false)) :
    (fromDate env (toDate env d)).timezone = [] ∧
    (fromDate env (toDate env d)).isUTC = false ∧
    (d.isDateOnly = true → isValidYMD d.year d.month d.day = true →
      (fromDate env (toDate env d)).year = d.year ∧
      (fromDate env (toDate env d)).month = d.month ∧
      (fromDate env (toDate env d)).day = d.day) := by
  by_cases hdo : d.isDateOnly = true
  · have ht : toDate env d
        = ⟨QDate.ofYMD d.year d.month d.day, ⟨0, 0, 0⟩, true,
            Spec.ofType SpecType.ClockTime⟩ := by
      simp [toDate, hv, hdo, KDateTime.setDateOnly, KDateTime.setDate,
        KDateTime.setTimeSpec, KDateTime.null]
    rw [ht]
    refine ⟨?_, ?_, ?_⟩
    · simp only [fromDate]
      split
      · rfl
      · rfl
    · simp only [fromDate]
      split
      · rfl
      · rfl
    · intro _ hdate
      have hmid : isValidHMS 0 0 0 = true := by decide
      simp [fromDate, KDateTime.isValid, Spec.isValid, Spec.ofType, QDate.isValid,
        QTime.isValid, ofYMD_of_valid _ _ _ hdate, hdate, hmid, QDate.year, QDate.month,
        QDate.day, cDateTime.setDate, cDateTime.unset]
  · have hdo2 : d.isDateOnly = false := by simpa using hdo
    rcases h with h | ⟨htz, hu⟩
    · exact absurd h hdo
    · have ht : toDate env d
          = ⟨QDate.ofYMD d.year d.month d.day, QTime.ofHMS d.hour d.minute d.second, false,
              Spec.ofType SpecType.ClockTime⟩ := by
        simp [toDate, hv, hdo2, htz, hu, getTimeSpec, KDateTime.setDate, KDateTime.setTime,
          KDateTime.setTimeSpec, KDateTime.null]
      rw [ht]
      refine ⟨?_, ?_, ?_⟩
      · simp only [fromDate]
        split
        · rfl
        · simp [KDateTime.timeType, Spec.ofType, cDateTime.setDate, cDateTime.setTime,
            cDateTime.unset]
      · simp only [fromDate]
        split
        · rfl
        · simp [KDateTime.timeType, Spec.ofType, cDateTime.setDate, cDateTime.setTime,
            cDateTime.unset]
      · intro hd
        exact absurd hd hdo

/-- C7, amended, at the date-only value 14 March 2021. -/
theorem floating_roundtrip_witness :
    (fromDate sampleZones (toDate sampleZones piDay)).timezone = [] ∧
    (fromDate sampleZones (toDate sampleZones piDay)).isUTC = false ∧
    (fromDate sampleZones (toDate sampleZones piDay)).year = 2021 ∧
    (fromDate sampleZones (toDate sampleZones piDay)).month = 3 ∧
    (fromDate sampleZones (toDate sampleZones piDay)).day = 14 :=
  have h := floating_roundtrip sampleZones piDay (by decide) (Or.inl (by decide))
  ⟨h.1, h.2.1, h.2.2 (by decide) (by decide)⟩

/-- C8: for every valid host value that is not date-only and whose time-spec has the kind
TimeZone, the result of fromDate carries the date and the time of the host value and is
not flagged UTC; when normalizing the name of the zone yields a non-empty identifier the
timezone of the result is that identifier, and when it yields the empty string the
timezone of the result is empty. -/
theorem fromDate_timeZone (env : TimeZones) (dt : KDateTime)
    (hv : dt.isValid = true) (hdo : dt.isDateOnly = false)
    (ht : dt.timeType = SpecType.TimeZone) :
    (fromDate env dt).year = dt.date.year ∧
    (fromDate env dt).month = dt.date.month ∧
    (fromDate env dt).day = dt.date.day ∧
    (fromDate env dt).hour = dt.time.hour ∧
    (fromDate env dt).minute = dt.time.minute ∧
    (fromDate env dt).second = dt.time.second ∧
    (fromDate env dt).isUTC = false ∧
    (env.normalizeTimezone dt.timeZone.name ≠ [] →
      (fromDate env dt).timezone = env.normalizeTimezone dt.timeZone.name) ∧
    (env.normalizeTimezone dt.timeZone.name = [] → (fromDate env dt).timezone = []) := by
  by_cases hn : env.normalizeTimezone dt.timeZone.name = []
  · simp [fromDate, hv, hdo, ht, hn, cDateTime.setDate, cDateTime.setTime, cDateTime.unset]
  · simp [fromDate, hv, hdo, ht, hn, cDateTime.setDate, cDateTime.setTime,
      cDateTime.setTimezone, cDateTime.unset]

/-- C8 at the host value 14 March 2021, 15:09:26 in the zone "W. Europe Standard Time",
whose normalized name is "Europe/Berlin". -/
theorem fromDate_timeZone_witness :
    fromDate sampleZones piDayBerlin
      = ⟨2021, 3, 14, 15, 9, 26, false, "Europe/Berlin".toList⟩ ∧
    (fromDate sampleZones piDayBerlin).year = piDayBerlin.date.year ∧
    (fromDate sampleZones piDayBerlin).timezone = "Europe/Berlin".toList :=
  have h := fromDate_timeZone sampleZones piDayBerlin (by decide) (by decide) (by decide)
  ⟨by decide, h.1, (h.2.2.2.2.2.2.2.1 (by decide)).trans (by decide)⟩

end Kolab.Conversion
